import Mathlib

/-!
Verification of the cryodrgn housekeeping utility
(`cryodrgn/commands_utils/clean.py`) and its test-fixture helpers
(`tests/conftest.py`) against their natural-language specification.

Filesystem directories are modelled as lists of named entries; Python
strings are analysed through their character lists; Python exceptions and
the `argparse.Namespace` / plain-`int` distinction are modelled explicitly
so that attribute errors, zero-division errors and the `yaml.safe_load`
failure modes are all visible in the embedding.
-/

namespace Cryodrgn

/-- Kind of a directory entry, distinguishing `Path.is_file()` from
`Path.is_dir()` (an entry can be neither, e.g. a broken symlink). -/
inductive EKind where
  | file
  | dir
  | other
deriving DecidableEq, Repr

/-- One entry directly inside a scanned directory. -/
structure Entry where
  name : String
  kind : EKind
deriving DecidableEq, Repr

/-- Python `str.split(sep)` for a single-character separator, on the
character list of the string.  `"".split(".") = [""]`,
`"a.".split(".") = ["a", ""]`. -/
def splitCh (sep : Char) : List Char → List (List Char)
  | [] => [[]]
  | c :: cs =>
      if c = sep then [] :: splitCh sep cs
      else
        match splitCh sep cs with
        | [] => [[c]]
        | t :: ts => (c :: t) :: ts

/-- The second dot-delimited token of a filename,
Python `name.split(".")[1]` (callers guard the index). -/
def tok1 (s : String) : List Char :=
  (splitCh '.' s.data).getD 1 []

/-- Python `str.isnumeric()` restricted to ASCII digit strings. -/
def isNumericTok (cs : List Char) : Bool :=
  !cs.isEmpty && cs.all Char.isDigit

/-- Python `int()` on a string of decimal digits. -/
def tokVal (cs : List Char) : Nat :=
  cs.foldl (fun a c => a * 10 + (c.toNat - 48)) 0

/-- The decimal digit characters. -/
def digitChar : Nat → Char
  | 0 => '0'
  | 1 => '1'
  | 2 => '2'
  | 3 => '3'
  | 4 => '4'
  | 5 => '5'
  | 6 => '6'
  | 7 => '7'
  | 8 => '8'
  | 9 => '9'
  | _ => '*'

/-- Fuelled most-significant-first decimal rendering of a natural number
(the fuel keeps the recursion structural so that terms reduce). -/
def decCharsAux : Nat → Nat → List Char
  | 0, _ => []
  | fuel + 1, n =>
      if n < 10 then [digitChar n]
      else decCharsAux fuel (n / 10) ++ [digitChar (n % 10)]

/-- Decimal rendering of a natural number, Python `str(n)` for `n ≥ 0`. -/
def decRepr (n : Nat) : String :=
  ⟨decCharsAux (n + 1) n⟩

/-- Python `str(k)` for an arbitrary integer. -/
def intRepr (k : Int) : String :=
  if k < 0 then "-" ++ decRepr k.natAbs else decRepr k.toNat

example : splitCh '.' "weights.3.pkl".data = ["weights".data, "3".data, "pkl".data] := by decide
example : splitCh '.' "analyze.".data = ["analyze".data, [].asString.data] := by decide
example : tok1 "weights.3.pkl" = ['3'] := by decide
example : tok1 "weights.pkl" = "pkl".data := by decide
example : isNumericTok (tok1 "weights.3.pkl") = true := by decide
example : isNumericTok (tok1 "weights.pkl") = false := by decide
example : tokVal "03".data = 3 := by decide
example : decRepr 0 = "0" := by decide
example : decRepr 437 = "437" := by decide
example : intRepr (-12) = "-12" := by decide

instance {ε α : Type} [DecidableEq ε] [DecidableEq α] : DecidableEq (Except ε α) := fun x y =>
  match x, y with
  | .error a, .error b =>
      if h : a = b then .isTrue (by rw [h])
      else .isFalse (by intro hh; cases hh; exact h rfl)
  | .error _, .ok _ => .isFalse (by intro hh; cases hh)
  | .ok _, .error _ => .isFalse (by intro hh; cases hh)
  | .ok a, .ok b =>
      if h : a = b then .isTrue (by rw [h])
      else .isFalse (by intro hh; cases hh; exact h rfl)

/-- Python exception classes that can arise in the modelled code.
`scannerError` stands for the `yaml.YAMLError` family raised by
`yaml.safe_load` on syntactically invalid input. -/
inductive PyExc where
  | eofError
  | bufferError
  | unpicklingError
  | importError
  | indexError
  | attributeError
  | typeError
  | keyError
  | valueError
  | zeroDivisionError
  | scannerError
  | assertionError
deriving DecidableEq, Repr

/-- `NORMAL_EXCEPTIONS` from clean.py: `(EOFError, BufferError,
pickle.UnpicklingError, ImportError, IndexError, AttributeError)`. -/
def isNormalExc : PyExc → Bool
  | .eofError => true
  | .bufferError => true
  | .unpicklingError => true
  | .importError => true
  | .indexError => true
  | .attributeError => true
  | _ => false

/-- The second argument of `clean_dir`.  `main` passes an
`argparse.Namespace` on the glob path but the plain integer
`args.every_n_epochs` on the no-glob path, so the model keeps both shapes;
attribute access on the integer raises `AttributeError`. -/
inductive ArgsVal where
  | nsArgs (every_n_epochs : Int) (dry_run : Bool)
  | intArg (k : Int)
deriving DecidableEq, Repr

/-- Python attribute access `args.every_n_epochs`. -/
def getEveryN : ArgsVal → Except PyExc Int
  | .nsArgs n _ => .ok n
  | .intArg _ => .error .attributeError

/-- Python attribute access `args.dry_run`. -/
def getDryRun : ArgsVal → Except PyExc Bool
  | .nsArgs _ b => .ok b
  | .intArg _ => .error .attributeError

/-- Python `a % n` on integers: raises `ZeroDivisionError` on `n = 0`,
otherwise takes the sign of the divisor (floor-based remainder). -/
def pyMod (a n : Int) : Except PyExc Int :=
  if n = 0 then .error .zeroDivisionError else .ok (Int.fmod a n)

/-- The `analysis_epochs` set comprehension of `clean_dir`: the integer
second dot-token of every subdirectory whose name starts with `analyze.`
(the code's `out_dir.name[:8] == "analyze."`) and whose second dot-token is
numeric. -/
def analysis_epochs (d : List Entry) : List Int :=
  (d.filter (fun e =>
      e.kind == EKind.dir
        && "analyze.".data.isPrefixOf e.name.data
        && isNumericTok (tok1 e.name))).map
    (fun e => (tokVal (tok1 e.name) : Int))

/-- The fixed label list iterated by `clean_dir`. -/
def out_labels : List String := ["weights", "z", "pose", "reconstruct"]

/-- Whether an entry's name matches the glob `f"{lbl}.*"`: the pattern is
the literal label, a dot, then anything. -/
def lbl_match (lbl : String) (e : Entry) : Bool :=
  (lbl ++ ".").data.isPrefixOf e.name.data

/-- `d.glob(f"{out_lbl}.*")`: the entries whose name has `out_lbl ++ "."`
as a prefix, in directory order. -/
def glob_matches (lbl : String) (st : List Entry) : List Entry :=
  st.filter (lbl_match lbl)

/-- `os.remove` on the single directory entry with the given name. -/
def removeFile (st : List Entry) (nm : String) : List Entry :=
  st.filter (fun x => x.name != nm)

/-- The body of `clean_dir`'s inner loop for one globbed entry, with the
source's evaluation order: `is_file()`, `isnumeric()`, the modulus (the
first access of `args.every_n_epochs`), the analysis-set membership, then
the access of `args.dry_run` guarding `os.remove`.  Returns
(counted, removed). -/
def file_step (args : ArgsVal) (anal : List Int) (e : Entry) :
    Except PyExc (Bool × Bool) :=
  if e.kind != EKind.file then .ok (false, false)
  else if !isNumericTok (tok1 e.name) then .ok (false, false)
  else
    match getEveryN args with
    | .error exc => .error exc
    | .ok n =>
        match pyMod (tokVal (tok1 e.name) : Int) n with
        | .error exc => .error exc
        | .ok m =>
            if m = 0 then .ok (false, false)
            else if anal.contains (tokVal (tok1 e.name) : Int) then .ok (false, false)
            else
              match getDryRun args with
              | .error exc => .error exc
              | .ok dry => .ok (true, !dry)

/-- The inner `for out_fl in d.glob(...)` loop over one label's matches,
threading the removal count and the directory state; an uncaught exception
aborts with the state reached so far. -/
def file_loop (args : ArgsVal) (anal : List Int) :
    List Entry → List Entry → Nat → Except (PyExc × List Entry) (Nat × List Entry)
  | [], st, cnt => .ok (cnt, st)
  | e :: es, st, cnt =>
      match file_step args anal e with
      | .error exc => .error (exc, st)
      | .ok (counted, removed) =>
          file_loop args anal es
            (if removed then removeFile st e.name else st)
            (if counted then cnt + 1 else cnt)

/-- The outer `for out_lbl in [...]` loop of `clean_dir`; each label's glob
is taken on the directory state current when that label is reached. -/
def label_loop (args : ArgsVal) (anal : List Int) :
    List String → List Entry → Nat → Except (PyExc × List Entry) (Nat × List Entry)
  | [], st, cnt => .ok (cnt, st)
  | lbl :: rest, st, cnt =>
      match file_loop args anal (glob_matches lbl st) st cnt with
      | .error e => .error e
      | .ok (cnt2, st2) => label_loop args anal rest st2 cnt2

/-- `clean_dir(d, args)`: computes the analysis-epoch set once, runs the
two nested loops, then reads `args.dry_run` a final time for the closing
print.  Result: the removal tally and the directory contents afterwards. -/
def clean_dir (d : List Entry) (args : ArgsVal) :
    Except (PyExc × List Entry) (Nat × List Entry) :=
  match label_loop args (analysis_epochs d) out_labels d 0 with
  | .error e => .error e
  | .ok (cnt, st) =>
      match getDryRun args with
      | .error exc => .error (exc, st)
      | .ok _ => .ok (cnt, st)

/-- Spec example: `weights.0.pkl` … `weights.9.pkl`, N = 5, no `analyze.*`
subdirectory: deletes epochs 1,2,3,4,6,7,8,9, keeps 0 and 5. -/
example :
    clean_dir
      ((List.range 10).map fun n => ⟨"weights." ++ decRepr n ++ ".pkl", EKind.file⟩)
      (ArgsVal.nsArgs 5 false)
    = .ok (8, [⟨"weights.0.pkl", EKind.file⟩, ⟨"weights.5.pkl", EKind.file⟩]) := by
  decide

/-- Spec example: same, with an `analyze.3` subdirectory: keeps 0, 3, 5. -/
example :
    clean_dir
      (⟨"analyze.3", EKind.dir⟩ ::
        (List.range 10).map fun n => ⟨"weights." ++ decRepr n ++ ".pkl", EKind.file⟩)
      (ArgsVal.nsArgs 5 false)
    = .ok (7, [⟨"analyze.3", EKind.dir⟩, ⟨"weights.0.pkl", EKind.file⟩,
        ⟨"weights.3.pkl", EKind.file⟩, ⟨"weights.5.pkl", EKind.file⟩]) := by
  decide

example :
    clean_dir [⟨"weights.7.pkl", EKind.file⟩] (ArgsVal.nsArgs 5 true)
    = .ok (1, [⟨"weights.7.pkl", EKind.file⟩]) := by decide

example :
    clean_dir [⟨"weights.7.pkl", EKind.file⟩] (ArgsVal.intArg 5)
    = .error (.attributeError, [⟨"weights.7.pkl", EKind.file⟩]) := by decide

example :
    clean_dir [⟨"notes.txt", EKind.file⟩] (ArgsVal.intArg 5)
    = .error (.attributeError, [⟨"notes.txt", EKind.file⟩]) := by decide

/-- The per-entry deletion condition checked inside `clean_dir`'s loop
(apart from the glob): the entry is a file, its second dot-token is
numeric, the epoch is not divisible by `N`, and the epoch is not in the
analysis-epoch set. -/
def del_pred (N : Int) (anal : List Int) (e : Entry) : Bool :=
  e.kind == EKind.file && isNumericTok (tok1 e.name)
    && !(Int.fmod (tokVal (tok1 e.name) : Int) N == 0)
    && !(anal.contains (tokVal (tok1 e.name) : Int))

/-- The complete deletion condition of one `clean_dir` run: some label's
glob matches the entry and `del_pred` holds. -/
def clean_del (N : Int) (anal : List Int) (e : Entry) : Bool :=
  out_labels.any (fun lbl => lbl_match lbl e) && del_pred N anal e

theorem file_step_ns (N : Int) (dry : Bool) (anal : List Int) (e : Entry) (hN : N ≠ 0) :
    file_step (ArgsVal.nsArgs N dry) anal e
      = .ok (del_pred N anal e, del_pred N anal e && !dry) := by
  have hpm : pyMod (tokVal (tok1 e.name) : Int) N
      = .ok (Int.fmod (tokVal (tok1 e.name) : Int) N) := by
    simp [pyMod, hN]
  simp only [file_step, getEveryN, getDryRun, hpm, del_pred]
  by_cases hk : e.kind == EKind.file <;>
    by_cases hnum : isNumericTok (tok1 e.name) <;>
      by_cases hm : Int.fmod (tokVal (tok1 e.name) : Int) N = 0 <;>
        by_cases hc : (tokVal (tok1 e.name) : Int) ∈ anal <;>
          simp [hk, hnum, hm, hc, bne, beq_iff_eq]

theorem file_loop_ns (N : Int) (dry : Bool) (anal : List Int) (hN : N ≠ 0)
    (ms : List Entry) : ∀ (st : List Entry) (cnt : Nat),
    file_loop (ArgsVal.nsArgs N dry) anal ms st cnt
      = .ok (cnt + ms.countP (del_pred N anal),
          st.filter (fun x =>
            !((ms.filter (fun m => del_pred N anal m && !dry)).any
                (fun m => m.name == x.name)))) := by
  induction ms with
  | nil => intro st cnt; simp [file_loop]
  | cons e es ih =>
      intro st cnt
      simp only [file_loop, file_step_ns N dry anal e hN]
      rw [ih]
      have hcnt : (if del_pred N anal e then cnt + 1 else cnt)
          + es.countP (del_pred N anal)
          = cnt + (e :: es).countP (del_pred N anal) := by
        rw [List.countP_cons]
        by_cases hd : del_pred N anal e <;> simp [hd] <;> omega
      by_cases hr : del_pred N anal e && !dry
      · have hcons : (e :: es).filter (fun m => del_pred N anal m && !dry)
            = e :: es.filter (fun m => del_pred N anal m && !dry) := by
          simp [List.filter_cons, hr]
        rw [hcnt, if_pos hr, hcons, removeFile, List.filter_filter]
        refine congrArg _ (congrArg _ (List.filter_congr fun x _ => ?_))
        simp only [List.any_cons, Bool.not_or, bne]
        cases hx : x.name == e.name with
        | true =>
            have hx2 : (e.name == x.name) = true := by
              rw [beq_iff_eq] at hx ⊢; exact hx.symm
            simp [hx, hx2]
        | false =>
            have hx2 : (e.name == x.name) = false := by
              rw [beq_eq_false_iff_ne] at hx ⊢; exact fun h => hx h.symm
            simp [hx, hx2]
      · have hrf : (del_pred N anal e && !dry) = false := by
          revert hr; cases del_pred N anal e && !dry <;> simp
        have hcons : (e :: es).filter (fun m => del_pred N anal m && !dry)
            = es.filter (fun m => del_pred N anal m && !dry) := by
          simp [List.filter_cons, hrf]
        rw [hcnt, if_neg hr, hcons]

theorem countP_congr_local {α : Type} (l : List α) (p q : α → Bool)
    (h : ∀ x ∈ l, p x = q x) : l.countP p = l.countP q := by
  rw [List.countP_eq_length_filter, List.countP_eq_length_filter, List.filter_congr h]

theorem countP_or_disjoint {α : Type} (p q : α → Bool) (l : List α)
    (h : ∀ x ∈ l, (p x ∧ q x) → False) :
    l.countP (fun x => p x || q x) = l.countP p + l.countP q := by
  induction l with
  | nil => simp
  | cons a t ih =>
      have ht : ∀ x ∈ t, (p x ∧ q x) → False := fun x hx => h x (List.mem_cons_of_mem a hx)
      have ha := h a (List.mem_cons_self a t)
      simp only [List.countP_cons]
      rw [ih ht]
      cases hp : p a with
      | true =>
          cases hq : q a with
          | true => exact absurd ⟨hp, hq⟩ ha
          | false => simp [hp, hq]; omega
      | false =>
          cases hq : q a with
          | true => simp [hp, hq]; omega
          | false => simp [hp, hq]

theorem pass_ns (N : Int) (dry : Bool) (anal : List Int) (hN : N ≠ 0)
    (st : List Entry) (cnt : Nat) (lbl : String)
    (hnd : (st.map Entry.name).Nodup) :
    file_loop (ArgsVal.nsArgs N dry) anal (glob_matches lbl st) st cnt
      = .ok (cnt + st.countP (fun e => del_pred N anal e && lbl_match lbl e),
          st.filter (fun x => !(lbl_match lbl x && (del_pred N anal x && !dry)))) := by
  rw [file_loop_ns N dry anal hN]
  have hcount : (glob_matches lbl st).countP (del_pred N anal)
      = st.countP (fun e => del_pred N anal e && lbl_match lbl e) := by
    rw [glob_matches, List.countP_filter]
  have hstate : st.filter (fun x =>
        !(((glob_matches lbl st).filter (fun m => del_pred N anal m && !dry)).any
            (fun m => m.name == x.name)))
      = st.filter (fun x => !(lbl_match lbl x && (del_pred N anal x && !dry))) := by
    rw [glob_matches, List.filter_filter]
    refine List.filter_congr fun x hx => ?_
    refine congrArg (fun b => !b) ?_
    cases hcase : lbl_match lbl x && (del_pred N anal x && !dry) with
    | true =>
        rw [List.any_eq_true]
        refine ⟨x, List.mem_filter.mpr ⟨hx, ?_⟩, by simp⟩
        rw [Bool.and_comm]; exact hcase
    | false =>
        refine Bool.eq_false_iff.mpr fun hany => ?_
        rw [List.any_eq_true] at hany
        obtain ⟨m, hm, hmx⟩ := hany
        rw [List.mem_filter] at hm
        obtain ⟨hmst, hmp⟩ := hm
        have hmx' : m.name = x.name := by rwa [beq_iff_eq] at hmx
        have hmex : m = x := List.inj_on_of_nodup_map hnd hmst hx hmx'
        subst hmex
        rw [Bool.and_comm, hcase] at hmp
        cases hmp
  rw [hcount, hstate]

theorem label_loop_ns (N : Int) (dry : Bool) (anal : List Int) (hN : N ≠ 0)
    (lbls : List String) :
    ∀ (st : List Entry) (cnt : Nat),
      (st.map Entry.name).Nodup →
      lbls.Pairwise (fun l1 l2 =>
        ∀ e : Entry, ¬(lbl_match l1 e = true ∧ lbl_match l2 e = true)) →
      label_loop (ArgsVal.nsArgs N dry) anal lbls st cnt
        = .ok (cnt + st.countP
              (fun e => lbls.any (fun l => lbl_match l e) && del_pred N anal e),
            st.filter (fun e =>
              !(lbls.any (fun l => lbl_match l e) && del_pred N anal e && !dry))) := by
  induction lbls with
  | nil => intro st cnt _ _; simp [label_loop]
  | cons lbl rest ih =>
      intro st cnt hnd hpw
      rw [List.pairwise_cons] at hpw
      obtain ⟨hhead, htail⟩ := hpw
      simp only [label_loop, pass_ns N dry anal hN st cnt lbl hnd]
      have hnd1 : ((st.filter (fun x =>
          !(lbl_match lbl x && (del_pred N anal x && !dry)))).map Entry.name).Nodup :=
        ((List.filter_sublist st).map Entry.name).nodup hnd
      rw [ih _ _ hnd1 htail]
      have hdisj1 : ∀ e ∈ st,
          ((fun e => del_pred N anal e && lbl_match lbl e) e
            ∧ (fun e => rest.any (fun l => lbl_match l e) && del_pred N anal e) e)
          → False := by
        intro e _ ⟨h1, h2⟩
        rw [Bool.and_eq_true] at h1 h2
        have hl1 : lbl_match lbl e = true := h1.2
        have hany : rest.any (fun l => lbl_match l e) = true := h2.1
        rw [List.any_eq_true] at hany
        obtain ⟨l, hl, hle⟩ := hany
        exact hhead l hl e ⟨hl1, hle⟩
      have hcnt : st.countP (fun e => del_pred N anal e && lbl_match lbl e)
            + (st.filter (fun x =>
                !(lbl_match lbl x && (del_pred N anal x && !dry)))).countP
              (fun e => rest.any (fun l => lbl_match l e) && del_pred N anal e)
          = st.countP (fun e =>
              (lbl :: rest).any (fun l => lbl_match l e) && del_pred N anal e) := by
        rw [List.countP_filter]
        have hrest : st.countP (fun e =>
              (rest.any (fun l => lbl_match l e) && del_pred N anal e)
                && !(lbl_match lbl e && (del_pred N anal e && !dry)))
            = st.countP (fun e => rest.any (fun l => lbl_match l e) && del_pred N anal e) := by
          refine countP_congr_local _ _ _ fun e he => ?_
          cases hre : rest.any (fun l => lbl_match l e) && del_pred N anal e with
          | true =>
              have hl0 : lbl_match lbl e = false := by
                cases hl0 : lbl_match lbl e with
                | true =>
                    rw [Bool.and_eq_true] at hre
                    have hany := hre.1
                    rw [List.any_eq_true] at hany
                    obtain ⟨l, hl, hle⟩ := hany
                    exact absurd ⟨hl0, hle⟩ (hhead l hl e)
                | false => rfl
              simp [hl0, hre]
          | false => simp [hre]
        rw [hrest, ← countP_or_disjoint _ _ _ hdisj1]
        refine countP_congr_local _ _ _ fun e he => ?_
        simp only [List.any_cons]
        cases lbl_match lbl e <;> cases rest.any (fun l => lbl_match l e) <;>
          cases del_pred N anal e <;> rfl
      have hst : (st.filter (fun x =>
            !(lbl_match lbl x && (del_pred N anal x && !dry)))).filter
              (fun e => !(rest.any (fun l => lbl_match l e) && del_pred N anal e && !dry))
          = st.filter (fun e =>
              !((lbl :: rest).any (fun l => lbl_match l e) && del_pred N anal e && !dry)) := by
        rw [List.filter_filter]
        refine List.filter_congr fun e he => ?_
        simp only [List.any_cons]
        cases lbl_match lbl e <;> cases rest.any (fun l => lbl_match l e) <;>
          cases del_pred N anal e <;> cases dry <;> rfl
      rw [hst, ← hcnt, Nat.add_assoc]

theorem out_labels_pairwise :
    out_labels.Pairwise (fun l1 l2 =>
      ∀ e : Entry, ¬(lbl_match l1 e = true ∧ lbl_match l2 e = true)) := by
  have key : ∀ l1 l2 : String,
      ((l1 ++ ".").data.isPrefixOf (l2 ++ ".").data) = false →
      ((l2 ++ ".").data.isPrefixOf (l1 ++ ".").data) = false →
      ∀ e : Entry, ¬(lbl_match l1 e = true ∧ lbl_match l2 e = true) := by
    intro l1 l2 h12 h21 e ⟨h1, h2⟩
    rw [lbl_match, List.isPrefixOf_iff_prefix] at h1 h2
    rcases List.prefix_or_prefix_of_prefix h1 h2 with hp | hp
    · rw [← List.isPrefixOf_iff_prefix, h12] at hp; cases hp
    · rw [← List.isPrefixOf_iff_prefix, h21] at hp; cases hp
  refine List.Pairwise.cons ?_ (List.Pairwise.cons ?_ (List.Pairwise.cons ?_
    (List.Pairwise.cons (fun b hb => by cases hb) List.Pairwise.nil)))
  · intro b hb
    simp only [List.mem_cons, List.not_mem_nil, or_false] at hb
    rcases hb with rfl | rfl | rfl
    · exact key _ _ (by decide) (by decide)
    · exact key _ _ (by decide) (by decide)
    · exact key _ _ (by decide) (by decide)
  · intro b hb
    simp only [List.mem_cons, List.not_mem_nil, or_false] at hb
    rcases hb with rfl | rfl
    · exact key _ _ (by decide) (by decide)
    · exact key _ _ (by decide) (by decide)
  · intro b hb
    simp only [List.mem_cons, List.not_mem_nil, or_false] at hb
    rcases hb with rfl
    exact key _ _ (by decide) (by decide)

/-- Closed form of `clean_dir` when called as `main`'s glob path does, with
the argparse namespace and a nonzero modulus: the count tallies exactly the
entries satisfying `clean_del`, and exactly those entries are removed
(none in dry-run mode). -/
theorem clean_dir_ns (d : List Entry) (N : Int) (dry : Bool) (hN : N ≠ 0)
    (hnd : (d.map Entry.name).Nodup) :
    clean_dir d (ArgsVal.nsArgs N dry)
      = .ok (d.countP (fun e => clean_del N (analysis_epochs d) e),
          d.filter (fun e => !(clean_del N (analysis_epochs d) e && !dry))) := by
  rw [clean_dir,
    label_loop_ns N dry (analysis_epochs d) hN out_labels d 0 hnd out_labels_pairwise]
  simp only [getDryRun, Nat.zero_add, clean_del]

theorem file_step_int (k : Int) (anal : List Int) (e : Entry) :
    file_step (ArgsVal.intArg k) anal e = .ok (false, false)
    ∨ file_step (ArgsVal.intArg k) anal e = .error .attributeError := by
  rw [file_step]
  by_cases hk : e.kind != EKind.file
  · left; rw [if_pos hk]
  · rw [if_neg hk]
    by_cases hn : !isNumericTok (tok1 e.name)
    · left; rw [if_pos hn]
    · rw [if_neg hn]; right; rfl

theorem file_loop_int (k : Int) (anal : List Int) (ms : List Entry) :
    ∀ (st : List Entry) (cnt : Nat),
      file_loop (ArgsVal.intArg k) anal ms st cnt = .ok (cnt, st)
      ∨ file_loop (ArgsVal.intArg k) anal ms st cnt = .error (.attributeError, st) := by
  induction ms with
  | nil => intro st cnt; left; rfl
  | cons e es ih =>
      intro st cnt
      rcases file_step_int k anal e with h | h
      · simp only [file_loop, h]
        exact ih st cnt
      · simp only [file_loop, h]
        exact Or.inr trivial

theorem label_loop_int (k : Int) (anal : List Int) (lbls : List String) :
    ∀ (st : List Entry) (cnt : Nat),
      label_loop (ArgsVal.intArg k) anal lbls st cnt = .ok (cnt, st)
      ∨ label_loop (ArgsVal.intArg k) anal lbls st cnt = .error (.attributeError, st) := by
  induction lbls with
  | nil => intro st cnt; left; rfl
  | cons lbl rest ih =>
      intro st cnt
      rcases file_loop_int k anal (glob_matches lbl st) st cnt with h | h
      · simp only [label_loop, h]
        exact ih st cnt
      · simp only [label_loop, h]
        exact Or.inr trivial

/-- `clean_dir` called with a plain integer in place of the argparse
namespace (as `main` does on its no-glob path) always raises
`AttributeError` at the first access of `args.every_n_epochs` or
`args.dry_run`, before any file has been removed. -/
theorem clean_dir_int (d : List Entry) (k : Int) :
    clean_dir d (ArgsVal.intArg k) = .error (.attributeError, d) := by
  rcases label_loop_int k (analysis_epochs d) out_labels d 0 with h | h <;>
    simp only [clean_dir, h]
  rfl

theorem splitCh_append (a rest : List Char) (ha : '.' ∉ a) :
    splitCh '.' (a ++ '.' :: rest) = a :: splitCh '.' rest := by
  induction a with
  | nil => simp [splitCh]
  | cons c cs ih =>
      have hc : ¬(c = '.') := fun h => ha (h ▸ List.mem_cons_self c cs)
      have hcs : '.' ∉ cs := fun h => ha (List.mem_cons_of_mem c h)
      simp only [List.cons_append, splitCh, if_neg hc]
      rw [show cs.append ('.' :: rest) = cs ++ '.' :: rest from rfl, ih hcs]

theorem numeric_no_dot (cs : List Char) (h : isNumericTok cs = true) : '.' ∉ cs := by
  intro hmem
  rw [isNumericTok, Bool.and_eq_true, List.all_eq_true] at h
  have := h.2 '.' hmem
  simp at this

/-- The second dot-token of a well-formed checkpoint name
`lbl ++ "." ++ epS ++ "." ++ ext` is `epS`, provided neither `lbl` nor
`epS` contains a dot. -/
theorem tok1_of_shape (lbl epS ext : String) (hl : '.' ∉ lbl.data)
    (he : '.' ∉ epS.data) :
    tok1 (lbl ++ "." ++ epS ++ "." ++ ext) = epS.data := by
  have hdata : (lbl ++ "." ++ epS ++ "." ++ ext).data
      = lbl.data ++ '.' :: (epS.data ++ '.' :: ext.data) := by
    show (lbl.data ++ ".".data ++ epS.data ++ ".".data ++ ext.data)
      = lbl.data ++ '.' :: (epS.data ++ '.' :: ext.data)
    simp
  rw [tok1, hdata, splitCh_append _ _ hl, splitCh_append _ _ he]
  rfl

theorem length_filter_not_add {α : Type} (l : List α) (p : α → Bool) :
    (l.filter (fun x => !p x)).length + l.countP p = l.length := by
  induction l with
  | nil => rfl
  | cons a t ih =>
      rw [List.countP_cons]
      cases hp : p a <;> simp [List.filter_cons, hp] <;> omega

/-- The analysis epoch set exactly as the claim words it: the set of
integers `E` for which a subdirectory literally named `analyze.E` exists.
This definition follows the claim's words, for comparison with the code's
`analysis_epochs`. -/
def specAnalyzeDirExists (d : List Entry) (E : Nat) : Bool :=
  d.any (fun e => e.kind == EKind.dir && e.name == "analyze." ++ decRepr E)

/-- Claim C1 is refuted at this directory: it contains a subdirectory
`analyze.3.bak` (not literally named `analyze.E` for any integer `E`) and
the checkpoint file `weights.3.pkl`. -/
def c1Dir : List Entry :=
  [⟨"analyze.3.bak", EKind.dir⟩, ⟨"weights.3.pkl", EKind.file⟩]

/-- Claim C1 (counterexample).  With N = 5, the claim as stated predicts
that `weights.3.pkl` is deleted: its epoch 3 satisfies `3 % 5 ≠ 0` and no
subdirectory named `analyze.3` exists, so 3 is not in the claim's analysis
epoch set.  Yet `clean_dir` removes nothing, because the code accepts any
`analyze.`-prefixed subdirectory with a numeric second dot-token, so the
subdirectory `analyze.3.bak` protects epoch 3. -/
theorem C1_counterexample :
    clean_dir c1Dir (ArgsVal.nsArgs 5 false) = .ok (0, c1Dir)
    ∧ Int.fmod 3 5 ≠ 0
    ∧ specAnalyzeDirExists c1Dir 3 = false := by decide

/-- Claim C1 (amended): for every directory, nonzero retention modulus N
and file named `lbl.epoch.ext` with `lbl` one of the four output labels and
a numeric epoch token, a non-dry `clean_dir` run deletes the file iff
`epoch % N ≠ 0` and `epoch` is not in the code's analysis-epoch set (the
integer second dot-tokens of `analyze.`-prefixed subdirectories, rather
than the set of `E` with a subdirectory literally named `analyze.E`); and
files whose second dot-token is not numeric are never deleted. -/
theorem C1_clean_rule (d : List Entry) (N : Int) (hN : N ≠ 0)
    (hnd : (d.map Entry.name).Nodup) (res : Nat × List Entry)
    (hrun : clean_dir d (ArgsVal.nsArgs N false) = .ok res) :
    (∀ e ∈ d, ∀ lbl epS ext : String,
        lbl ∈ out_labels → e.kind = EKind.file
        → e.name = lbl ++ "." ++ epS ++ "." ++ ext
        → isNumericTok epS.data = true
        → (e ∉ res.2
            ↔ (Int.fmod (tokVal epS.data : Int) N ≠ 0
                ∧ (tokVal epS.data : Int) ∉ analysis_epochs d)))
    ∧ (∀ e ∈ d, isNumericTok (tok1 e.name) = false → e ∈ res.2) := by
  rw [clean_dir_ns d N false hN hnd] at hrun
  have hres : res.2 = d.filter
      (fun e => !(clean_del N (analysis_epochs d) e && !false)) := by
    cases hrun.symm; rfl
  constructor
  · intro e he lbl epS ext hlbl hkind hname hnum
    have hldot : '.' ∉ lbl.data := by
      rw [out_labels] at hlbl
      simp only [List.mem_cons, List.not_mem_nil, or_false] at hlbl
      rcases hlbl with rfl | rfl | rfl | rfl <;> decide
    have hedot : '.' ∉ epS.data := numeric_no_dot _ hnum
    have htok : tok1 e.name = epS.data := by
      rw [hname]; exact tok1_of_shape lbl epS ext hldot hedot
    have hmatch : lbl_match lbl e = true := by
      rw [lbl_match, List.isPrefixOf_iff_prefix]
      refine ⟨(epS ++ "." ++ ext).data, ?_⟩
      rw [hname]
      show (lbl ++ ".").data ++ (epS ++ "." ++ ext).data
        = (lbl ++ "." ++ epS ++ "." ++ ext).data
      simp
    have hany : out_labels.any (fun l => lbl_match l e) = true :=
      List.any_eq_true.mpr ⟨lbl, hlbl, hmatch⟩
    have hdel : clean_del N (analysis_epochs d) e
        = (!(Int.fmod (tokVal epS.data : Int) N == 0)
            && !((analysis_epochs d).contains (tokVal epS.data : Int))) := by
      rw [clean_del, del_pred, htok, hany, hkind, hnum]
      simp
    rw [hres]
    have hmem : (e ∉ List.filter
          (fun x => !(clean_del N (analysis_epochs d) x && !false)) d)
        ↔ clean_del N (analysis_epochs d) e = true := by
      rw [List.mem_filter]
      constructor
      · intro hnm
        cases hb : clean_del N (analysis_epochs d) e with
        | true => rfl
        | false => exact absurd ⟨he, by rw [hb]; rfl⟩ hnm
      · rintro hb ⟨-, hcontra⟩
        rw [hb] at hcontra
        simp at hcontra
    rw [hmem, hdel]
    simp [beq_iff_eq]
  · intro e he hnn
    rw [hres, List.mem_filter]
    refine ⟨he, ?_⟩
    rw [clean_del, del_pred, hnn]
    simp

/-- Claim C1 (witness): the amended rule applied to a concrete directory
holding `weights.3.pkl`, `weights.5.pkl` and `pose.txt` with N = 5. -/
theorem C1_clean_rule_witness :
    (∀ e ∈ ([⟨"weights.3.pkl", EKind.file⟩, ⟨"weights.5.pkl", EKind.file⟩,
          ⟨"pose.txt", EKind.file⟩] : List Entry),
      ∀ lbl epS ext : String,
        lbl ∈ out_labels → e.kind = EKind.file
        → e.name = lbl ++ "." ++ epS ++ "." ++ ext
        → isNumericTok epS.data = true
        → (e ∉ ((1, [⟨"weights.5.pkl", EKind.file⟩, ⟨"pose.txt", EKind.file⟩])
              : Nat × List Entry).2
            ↔ (Int.fmod (tokVal epS.data : Int) 5 ≠ 0
                ∧ (tokVal epS.data : Int) ∉ analysis_epochs
                    [⟨"weights.3.pkl", EKind.file⟩, ⟨"weights.5.pkl", EKind.file⟩,
                      ⟨"pose.txt", EKind.file⟩])))
    ∧ (∀ e ∈ ([⟨"weights.3.pkl", EKind.file⟩, ⟨"weights.5.pkl", EKind.file⟩,
          ⟨"pose.txt", EKind.file⟩] : List Entry),
        isNumericTok (tok1 e.name) = false
        → e ∈ ((1, [⟨"weights.5.pkl", EKind.file⟩, ⟨"pose.txt", EKind.file⟩])
            : Nat × List Entry).2) :=
  C1_clean_rule
    [⟨"weights.3.pkl", EKind.file⟩, ⟨"weights.5.pkl", EKind.file⟩,
      ⟨"pose.txt", EKind.file⟩]
    5 (by decide) (by decide)
    (1, [⟨"weights.5.pkl", EKind.file⟩, ⟨"pose.txt", EKind.file⟩]) (by decide)

theorem clean_dir_dry (d : List Entry) (N : Int) (hN : N ≠ 0)
    (hnd : (d.map Entry.name).Nodup) :
    clean_dir d (ArgsVal.nsArgs N true)
      = .ok (d.countP (fun e => clean_del N (analysis_epochs d) e), d) := by
  rw [clean_dir_ns d N true hN hnd]
  refine congrArg _ (congrArg _ ?_)
  have : d.filter (fun e => !(clean_del N (analysis_epochs d) e && !true))
      = d.filter (fun _ => true) := by
    refine List.filter_congr fun e _ => ?_
    cases clean_del N (analysis_epochs d) e <;> rfl
  rw [this, List.filter_true]

theorem clean_dir_wet (d : List Entry) (N : Int) (hN : N ≠ 0)
    (hnd : (d.map Entry.name).Nodup) :
    clean_dir d (ArgsVal.nsArgs N false)
      = .ok (d.countP (fun e => clean_del N (analysis_epochs d) e),
          d.filter (fun e => !(clean_del N (analysis_epochs d) e))) := by
  rw [clean_dir_ns d N false hN hnd]
  refine congrArg _ (congrArg _ ?_)
  refine List.filter_congr fun e _ => ?_
  cases clean_del N (analysis_epochs d) e <;> rfl

/-- Claim C4: with a nonzero modulus, a dry run of `clean_dir` leaves the
directory unchanged, and the count it reports is exactly the number of
files that a non-dry run on the same directory state deletes. -/
theorem C4_dry_run (d : List Entry) (N : Int) (hN : N ≠ 0)
    (hnd : (d.map Entry.name).Nodup) :
    ∃ cnt wet, clean_dir d (ArgsVal.nsArgs N true) = .ok (cnt, d)
      ∧ clean_dir d (ArgsVal.nsArgs N false) = .ok (cnt, wet)
      ∧ wet.length + cnt = d.length := by
  refine ⟨d.countP (fun e => clean_del N (analysis_epochs d) e),
    d.filter (fun e => !(clean_del N (analysis_epochs d) e)),
    clean_dir_dry d N hN hnd, clean_dir_wet d N hN hnd, ?_⟩
  exact length_filter_not_add d (fun e => clean_del N (analysis_epochs d) e)

/-- Claim C4 (witness): the dry-run frame property at a concrete
directory. -/
theorem C4_dry_run_witness :
    ∃ cnt wet,
      clean_dir [⟨"z.4.pkl", EKind.file⟩, ⟨"z.10.pkl", EKind.file⟩]
          (ArgsVal.nsArgs 5 true) = .ok (cnt, [⟨"z.4.pkl", EKind.file⟩,
            ⟨"z.10.pkl", EKind.file⟩])
      ∧ clean_dir [⟨"z.4.pkl", EKind.file⟩, ⟨"z.10.pkl", EKind.file⟩]
          (ArgsVal.nsArgs 5 false) = .ok (cnt, wet)
      ∧ wet.length + cnt
          = ([⟨"z.4.pkl", EKind.file⟩, ⟨"z.10.pkl", EKind.file⟩] : List Entry).length :=
  C4_dry_run [⟨"z.4.pkl", EKind.file⟩, ⟨"z.10.pkl", EKind.file⟩] 5
    (by decide) (by decide)

theorem analysis_epochs_filter (d : List Entry) (p : Entry → Bool)
    (h : ∀ e ∈ d, e.kind = EKind.dir → p e = true) :
    analysis_epochs (d.filter p) = analysis_epochs d := by
  rw [analysis_epochs, analysis_epochs, List.filter_filter]
  refine congrArg _ (List.filter_congr fun e he => ?_)
  cases hk : e.kind == EKind.dir with
  | true =>
      have hp := h e he (by rwa [beq_iff_eq] at hk)
      rw [hp]
      cases ("analyze.".data.isPrefixOf e.name.data) <;>
        cases isNumericTok (tok1 e.name) <;> rfl
  | false =>
      cases hp : p e <;> rfl

/-- Claim C5: cleaning is idempotent — a second non-dry `clean_dir` run
with the same nonzero modulus on the directory state left by the first run
deletes zero files and leaves the state unchanged. -/
theorem C5_idempotent (d : List Entry) (N : Int) (hN : N ≠ 0)
    (hnd : (d.map Entry.name).Nodup) (c1 : Nat) (d1 : List Entry)
    (hrun : clean_dir d (ArgsVal.nsArgs N false) = .ok (c1, d1)) :
    clean_dir d1 (ArgsVal.nsArgs N false) = .ok (0, d1) := by
  rw [clean_dir_wet d N hN hnd] at hrun
  have hd1 : d1 = d.filter (fun e => !(clean_del N (analysis_epochs d) e)) := by
    cases hrun.symm; rfl
  subst hd1
  have hnd1 : ((d.filter (fun e => !(clean_del N (analysis_epochs d) e))).map
      Entry.name).Nodup :=
    ((List.filter_sublist d).map Entry.name).nodup hnd
  rw [clean_dir_wet _ N hN hnd1]
  have hanal : analysis_epochs
        (d.filter (fun e => !(clean_del N (analysis_epochs d) e)))
      = analysis_epochs d := by
    refine analysis_epochs_filter d _ fun e _ hdir => ?_
    rw [clean_del, del_pred, hdir]
    have hdf : (EKind.dir == EKind.file) = false := by decide
    rw [hdf]
    simp
  rw [hanal]
  have hcnt : (d.filter (fun e => !(clean_del N (analysis_epochs d) e))).countP
        (fun e => clean_del N (analysis_epochs d) e) = 0 := by
    rw [List.countP_filter]
    have : d.countP (fun e => clean_del N (analysis_epochs d) e
          && !(clean_del N (analysis_epochs d) e))
        = d.countP (fun _ => false) := by
      refine countP_congr_local _ _ _ fun e _ => ?_
      cases clean_del N (analysis_epochs d) e <;> rfl
    rw [this, List.countP_false]
    rfl
  have hfix : (d.filter (fun e => !(clean_del N (analysis_epochs d) e))).filter
        (fun e => !(clean_del N (analysis_epochs d) e))
      = d.filter (fun e => !(clean_del N (analysis_epochs d) e)) := by
    rw [List.filter_filter]
    refine List.filter_congr fun e _ => ?_
    cases clean_del N (analysis_epochs d) e <;> rfl
  rw [hcnt, hfix]

/-- Python's substring test `needle in hay` on character lists. -/
def pySubstr (needle : List Char) : List Char → Bool
  | [] => needle.isEmpty
  | c :: cs => needle.isPrefixOf (c :: cs) || pySubstr needle cs

/-- YAML values as produced by `yaml.safe_load`. -/
inductive Yaml where
  | null
  | bool (b : Bool)
  | int (n : Int)
  | str (s : String)
  | list (xs : List Yaml)
  | dict (kvs : List (String × Yaml))

/-- Python `key in cfg` for a string key: `TypeError` on non-container
scalars, substring test on strings, element equality on lists, key lookup
on dicts. -/
def pyInStr (key : String) : Yaml → Except PyExc Bool
  | .null => .error .typeError
  | .bool _ => .error .typeError
  | .int _ => .error .typeError
  | .str s => .ok (pySubstr key.data s.data)
  | .list xs => .ok (xs.any fun y => match y with | .str t => t == key | _ => false)
  | .dict kvs => .ok (kvs.any fun kv => kv.1 == key)

/-- Python `cfg[key]` for a string key. -/
def pyGetItemStr : Yaml → String → Except PyExc Yaml
  | .dict kvs, key =>
      match kvs.find? (fun kv => kv.1 == key) with
      | some kv => .ok kv.2
      | Option.none => .error .keyError
  | _, _ => .error .typeError

/-- Python `x[i]` for a nonnegative integer index. -/
def pyGetIdx : Yaml → Nat → Except PyExc Yaml
  | .list xs, i =>
      match xs.get? i with
      | some y => .ok y
      | Option.none => .error .indexError
  | .str s, i =>
      match s.data.get? i with
      | some c => .ok (.str ⟨[c]⟩)
      | Option.none => .error .indexError
  | .dict _, _ => .error .keyError
  | _, _ => .error .typeError

/-- The recognized subcommand set of `check_open_config`. -/
def cryodrgn_cmds : List String := ["abinit_homo", "abinit_het", "train_nn", "train_vae"]

/-- Python `x in cryodrgn_cmds` for a set of strings: unhashable values
(lists, dicts) raise `TypeError`; other non-strings are simply absent. -/
def pyInCmdSet : Yaml → Except PyExc Bool
  | .str s => .ok (cryodrgn_cmds.contains s)
  | .list _ => .error .typeError
  | .dict _ => .error .typeError
  | _ => .ok false

/-- The shape test of `check_open_config`, with Python's left-to-right
short-circuit evaluation:
`"cmd" not in cfg or "cryodrgn" not in cfg["cmd"][0] or cfg["cmd"][1] not
in cryodrgn_cmds or "dataset_args" not in cfg`.  This runs outside the
`try` block, so any exception it raises propagates. -/
def shape_bad (cfg : Yaml) : Except PyExc Bool :=
  match pyInStr "cmd" cfg with
  | .error e => .error e
  | .ok hasCmd =>
      if !hasCmd then .ok true
      else
        match pyGetItemStr cfg "cmd" with
        | .error e => .error e
        | .ok cmd =>
            match pyGetIdx cmd 0 with
            | .error e => .error e
            | .ok c0 =>
                match pyInStr "cryodrgn" c0 with
                | .error e => .error e
                | .ok hasTool =>
                    if !hasTool then .ok true
                    else
                      match pyGetIdx cmd 1 with
                      | .error e => .error e
                      | .ok c1 =>
                          match pyInCmdSet c1 with
                          | .error e => .error e
                          | .ok isCmd =>
                              if !isCmd then .ok true
                              else
                                match pyInStr "dataset_args" cfg with
                                | .error e => .error e
                                | .ok hasDs => .ok (!hasDs)

/-- The candidate config filenames, in the enumeration order of
`product(["config", "configs"], [".yaml", ".yml"])`. -/
def config_names : List String :=
  ["config", "configs"].flatMap (fun lbl => [".yaml", ".yml"].map (fun ext => lbl ++ ext))

example : config_names = ["config.yaml", "config.yml", "configs.yaml", "configs.yml"] := by
  decide

/-- `{p.name for p in d.iterdir() if p.is_file()}`. -/
def dir_files (d : List Entry) : List String :=
  (d.filter (fun e => e.kind == EKind.file)).map Entry.name

/-- The config-selection loop of `check_open_config`: the first candidate
present among the directory's files. -/
def find_config (d : List Entry) : Option String :=
  config_names.find? (fun c => (dir_files d).contains c)

/-- `check_open_config(d)`, with `yaml.safe_load` supplied as an oracle
from filename to parse outcome.  The `try` block absorbs exactly
`NORMAL_EXCEPTIONS` (leaving `cfg = None`); the shape test runs outside
it; a missing config also leaves `cfg = None`.  Python's `None` return is
`Option.none`, a returned dict is `some`. -/
def check_open_config (d : List Entry) (load : String → Except PyExc Yaml) :
    Except PyExc (Option Yaml) :=
  match find_config d with
  | Option.none => .ok Option.none
  | some cfgName =>
      match load cfgName with
      | .error e => if isNormalExc e then .ok Option.none else .error e
      | .ok y =>
          match shape_bad y with
          | .error e => .error e
          | .ok true => .ok (some (Yaml.dict []))
          | .ok false => .ok (some y)

/-- A well-formed recognized config parses to a non-empty mapping that is
returned unchanged. -/
example :
    check_open_config [⟨"config.yaml", EKind.file⟩]
      (fun _ => .ok (Yaml.dict
        [("cmd", Yaml.list [Yaml.str "cryodrgn", Yaml.str "train_nn"]),
          ("dataset_args", Yaml.dict [])]))
    = .ok (some (Yaml.dict
        [("cmd", Yaml.list [Yaml.str "cryodrgn", Yaml.str "train_nn"]),
          ("dataset_args", Yaml.dict [])])) := rfl

/-- A config whose tool name does not mention cryodrgn is rejected with an
empty mapping (spec example: `cmd: ["some_other_tool", "train_nn"]`). -/
example :
    check_open_config [⟨"config.yaml", EKind.file⟩]
      (fun _ => .ok (Yaml.dict
        [("cmd", Yaml.list [Yaml.str "some_other_tool", Yaml.str "train_nn"]),
          ("dataset_args", Yaml.dict [])]))
    = .ok (some (Yaml.dict [])) := rfl

/-- Claim C2 (code bug, evaluated at the failing inputs): a directory
whose `config.yaml` parses to YAML `null` (e.g. an empty file) makes
`check_open_config` raise `TypeError` from `"cmd" not in cfg` — the shape
test runs outside the `try` block — and a YAML syntax error
(`yaml.YAMLError` is not in `NORMAL_EXCEPTIONS`) propagates, so for such
malformed or unparsable configs no empty mapping is returned and an
exception does escape; moreover a directory with no config file returns
Python `None`, not an empty mapping. -/
theorem C2_config_failures :
    check_open_config [⟨"config.yaml", EKind.file⟩] (fun _ => .ok Yaml.null)
      = .error .typeError
    ∧ check_open_config [⟨"config.yaml", EKind.file⟩] (fun _ => .error .scannerError)
      = .error .scannerError
    ∧ check_open_config [] (fun _ => .ok Yaml.null) = .ok Option.none :=
  ⟨rfl, rfl, rfl⟩

/-- Claim C7: `check_open_config` selects the first candidate config
filename present in the directory, in the fixed priority order
config.yaml, config.yml, configs.yaml, configs.yml, and parses only the
selected file: the outcome depends on the `yaml.safe_load` oracle only at
the selected filename. -/
theorem C7_config_priority (d : List Entry) :
    ("config.yaml" ∈ dir_files d → find_config d = some "config.yaml")
    ∧ ("config.yaml" ∉ dir_files d → "config.yml" ∈ dir_files d →
        find_config d = some "config.yml")
    ∧ ("config.yaml" ∉ dir_files d → "config.yml" ∉ dir_files d →
        "configs.yaml" ∈ dir_files d → find_config d = some "configs.yaml")
    ∧ ("config.yaml" ∉ dir_files d → "config.yml" ∉ dir_files d →
        "configs.yaml" ∉ dir_files d → "configs.yml" ∈ dir_files d →
        find_config d = some "configs.yml")
    ∧ (∀ load1 load2 : String → Except PyExc Yaml,
        (∀ c, find_config d = some c → load1 c = load2 c) →
        check_open_config d load1 = check_open_config d load2) := by
  have hcont : ∀ c : String, (dir_files d).contains c = decide (c ∈ dir_files d) :=
    fun c => List.elem_eq_mem c (dir_files d)
  refine ⟨?_, ?_, ?_, ?_, ?_⟩
  · intro h1
    simp [find_config, config_names, List.find?, hcont, h1]
  · intro h1 h2
    simp [find_config, config_names, List.find?, hcont, h1, h2]
  · intro h1 h2 h3
    simp [find_config, config_names, List.find?, hcont, h1, h2, h3]
  · intro h1 h2 h3 h4
    simp [find_config, config_names, List.find?, hcont, h1, h2, h3, h4]
  · intro load1 load2 hsame
    rw [check_open_config, check_open_config]
    cases hf : find_config d with
    | none => rfl
    | some c => simp only [hsame c hf]

/-- Claim C7 (witness): with `config.yml` and `configs.yaml` both present
and `config.yaml` absent, `config.yml` is selected. -/
theorem C7_config_priority_witness :
    find_config [⟨"configs.yaml", EKind.file⟩, ⟨"config.yml", EKind.file⟩]
      = some "config.yml" :=
  (C7_config_priority
      [⟨"configs.yaml", EKind.file⟩, ⟨"config.yml", EKind.file⟩]).2.1
    (by decide) (by decide)

/-- A relative filesystem path, as its list of components (glob results
contain no `..` and are relative to the working directory). -/
abbrev DirPath := List String

/-- Python `cur_dir in p.parents`: the strict ancestors of `p`, i.e. the
proper component prefixes (including the empty path, Python's `.`). -/
def inParents (a p : DirPath) : Bool :=
  a.isPrefixOf p && a != p

/-- The path's string form, used by `sorted` on `Path` objects. -/
def pathKey (p : DirPath) : String := String.intercalate "/" p

/-- Python's lexicographic string `<`, by code point. -/
def strLtB : List Char → List Char → Bool
  | [], [] => false
  | [], _ :: _ => true
  | _ :: _, [] => false
  | a :: as, b :: bs => a.toNat < b.toNat || (a == b && strLtB as bs)

def insertPath (x : DirPath) : List DirPath → List DirPath
  | [] => [x]
  | y :: ys =>
      if strLtB (pathKey x).data (pathKey y).data then x :: y :: ys
      else y :: insertPath x ys

/-- `sorted(set(...))` over paths: deduplicate, then insertion-sort by the
path string. -/
def sortDedupPaths (l : List DirPath) : List DirPath :=
  l.dedup.foldr insertPath []

/-- The scan loop of `main`: pop the queue head, classify it via
`check_open_config`, prompt/clean through `_prompt_dir`, and if the config
was truthy drop every queued descendant (`cur_dir not in p.parents`).
Classification truthiness is abstracted into `recog`; since every path is
visited at most once, a fixed `recog` covers every actual run, whatever
the prompting and cleaning side effects.  The fuel starts at the initial
queue length, which suffices because every iteration pops one element.
Output: the processed directories with their classification. -/
def scan_loop_fuel (recog : DirPath → Bool) : Nat → List DirPath → List (DirPath × Bool)
  | 0, _ => []
  | _ + 1, [] => []
  | fuel + 1, q :: qs =>
      let c := recog q
      (q, c) :: scan_loop_fuel recog fuel
        (if c then qs.filter (fun p => !(inParents q p)) else qs)

def scan_loop (recog : DirPath → Bool) (qs : List DirPath) : List (DirPath × Bool) :=
  scan_loop_fuel recog qs.length qs

/-- The parsed command-line options of the clean command. -/
structure CleanArgs where
  outglobs : List String
  every_n_epochs : Int
  force : Bool
  verbose : Nat
  dry_run : Bool

/-- `main(args)`.  With no patterns it calls
`clean_dir(Path(os.getcwd()), args.every_n_epochs)` — handing `clean_dir`
the plain integer instead of the namespace, with no classification of the
working directory.  Otherwise it expands the patterns over the filesystem
(`expand`), keeps directories, dedups and sorts, computes `maxlen` via
`max(scan_dirs, ...)` — which raises `ValueError` on an empty sequence —
and then runs the scan loop. -/
def main (args : CleanArgs) (cwd : List Entry)
    (expand : String → List DirPath) (is_dir : DirPath → Bool)
    (recog : DirPath → Bool) :
    Except (PyExc × List Entry) (List (DirPath × Bool)) :=
  if args.outglobs.isEmpty then
    match clean_dir cwd (ArgsVal.intArg args.every_n_epochs) with
    | .error e => .error e
    | .ok _ => .ok []
  else
    let scan_dirs := sortDedupPaths ((args.outglobs.flatMap expand).filter is_dir)
    if scan_dirs.isEmpty then .error (.valueError, cwd)
    else .ok (scan_loop recog scan_dirs)

/-- Claim C3 (code bug, evaluated on the failing path): with no glob
patterns, `main` never classifies the current working directory — it calls
`clean_dir` on it directly, and passes `args.every_n_epochs` (an integer)
where the namespace is expected, so every such run raises `AttributeError`
with the directory contents untouched, whatever the directory and
options. -/
theorem C3_noglob_bypasses_classification (n : Int) (f : Bool) (v : Nat) (dr : Bool)
    (cwd : List Entry) (expand : String → List DirPath)
    (is_dir : DirPath → Bool) (recog : DirPath → Bool) :
    main ⟨[], n, f, v, dr⟩ cwd expand is_dir recog
      = .error (.attributeError, cwd) := by
  simp only [main, List.isEmpty_nil, if_true, clean_dir_int]

theorem scan_loop_fuel_mem (recog : DirPath → Bool) :
    ∀ (fuel : Nat) (qs : List DirPath) (x : DirPath × Bool),
      x ∈ scan_loop_fuel recog fuel qs → x.1 ∈ qs := by
  intro fuel
  induction fuel with
  | zero => intro qs x hx; cases hx
  | succ f ih =>
      intro qs x hx
      cases qs with
      | nil => cases hx
      | cons q rest =>
          simp only [scan_loop_fuel] at hx
          rcases List.mem_cons.mp hx with heq | hmem
          · rw [heq]; exact List.mem_cons_self _ _
          · have hq := ih _ x hmem
            by_cases hc : recog q
            · rw [if_pos hc] at hq
              exact List.mem_cons_of_mem q (List.mem_of_mem_filter hq)
            · rw [if_neg hc] at hq
              exact List.mem_cons_of_mem q hq

theorem scan_loop_fuel_pairwise (recog : DirPath → Bool) :
    ∀ (fuel : Nat) (qs : List DirPath),
      (scan_loop_fuel recog fuel qs).Pairwise
        (fun a b => a.2 = true → inParents a.1 b.1 = false) := by
  intro fuel
  induction fuel with
  | zero => intro qs; exact List.Pairwise.nil
  | succ f ih =>
      intro qs
      cases qs with
      | nil => exact List.Pairwise.nil
      | cons q rest =>
          simp only [scan_loop_fuel]
          refine List.Pairwise.cons ?_ (ih _)
          intro b hb hq
          have hb1 := scan_loop_fuel_mem recog f _ b hb
          rw [if_pos hq] at hb1
          have hp := List.of_mem_filter hb1
          cases hin : inParents q b.1 with
          | false => rfl
          | true => rw [hin] at hp; cases hp

/-- Claim C6: throughout one run of `main`, once a directory is classified
recognized, every queued filesystem descendant of it is removed, so no
path under a recognized directory is classified or prompted later in the
same run. -/
theorem C6_descendant_skipping (args : CleanArgs) (cwd : List Entry)
    (expand : String → List DirPath) (is_dir : DirPath → Bool)
    (recog : DirPath → Bool) (out : List (DirPath × Bool))
    (hrun : main args cwd expand is_dir recog = .ok out) :
    out.Pairwise (fun a b => a.2 = true → inParents a.1 b.1 = false) := by
  simp only [main] at hrun
  by_cases hg : args.outglobs.isEmpty
  · rw [if_pos hg, clean_dir_int] at hrun
    cases hrun
  · rw [if_neg hg] at hrun
    by_cases hs : (sortDedupPaths ((args.outglobs.flatMap expand).filter is_dir)).isEmpty
    · rw [if_pos hs] at hrun
      exact Except.noConfusion hrun
    · rw [if_neg hs] at hrun
      cases hrun
      exact scan_loop_fuel_pairwise recog _ _

/-- Claim C6 (witness): a concrete run where `a` is recognized and its
descendant `a/b` is dropped from the queue. -/
theorem C6_descendant_skipping_witness :
    ([(["a"], true)] : List (DirPath × Bool)).Pairwise
      (fun a b => a.2 = true → inParents a.1 b.1 = false) :=
  C6_descendant_skipping ⟨["g"], 5, false, 0, false⟩ []
    (fun _ => [["a"], ["a", "b"]]) (fun _ => true) (fun _ => true)
    [(["a"], true)] (by decide)

/-- Claim C10: for every non-empty pattern list whose expansions contain
no existing directory, `main` raises `ValueError` (from `max()` over the
empty candidate sequence, before the scan loop) rather than completing
with nothing to report. -/
theorem C10_empty_scan_raises (args : CleanArgs) (cwd : List Entry)
    (expand : String → List DirPath) (is_dir : DirPath → Bool)
    (recog : DirPath → Bool) (hne : args.outglobs ≠ [])
    (hmatch : ∀ g ∈ args.outglobs, (expand g).filter is_dir = []) :
    main args cwd expand is_dir recog = .error (.valueError, cwd) := by
  have hflat : ∀ gs : List String, (∀ g ∈ gs, (expand g).filter is_dir = []) →
      (gs.flatMap expand).filter is_dir = [] := by
    intro gs
    induction gs with
    | nil => intro _; rfl
    | cons g rest ih =>
        intro h
        rw [List.flatMap_cons, List.filter_append, h g (List.mem_cons_self g rest),
          ih (fun x hx => h x (List.mem_cons_of_mem g hx))]
        rfl
  have hgne : args.outglobs.isEmpty = false := by
    cases hout : args.outglobs with
    | nil => exact absurd hout hne
    | cons a l => rfl
  simp only [main, hgne, Bool.false_eq_true, if_false, hflat args.outglobs hmatch]
  rfl

/-- Claim C10 (witness): a single pattern expanding to no directories. -/
theorem C10_empty_scan_raises_witness :
    main ⟨["*old*"], 5, false, 0, false⟩ [] (fun _ => []) (fun _ => false)
        (fun _ => false)
      = .error (.valueError, []) :=
  C10_empty_scan_raises ⟨["*old*"], 5, false, 0, false⟩ [] (fun _ => [])
    (fun _ => false) (fun _ => false) (by decide) (fun g _ => rfl)

theorem tokVal_append_digit (xs : List Char) (c : Char) :
    tokVal (xs ++ [c]) = tokVal xs * 10 + (c.toNat - 48) := by
  rw [tokVal, List.foldl_append]
  rfl

theorem digit_val (d : Nat) (hd : d < 10) : (digitChar d).toNat - 48 = d := by
  interval_cases d <;> decide

theorem tokVal_decCharsAux : ∀ (fuel n : Nat), n < fuel →
    tokVal (decCharsAux fuel n) = n := by
  intro fuel
  induction fuel with
  | zero => intro n h; omega
  | succ f ih =>
      intro n h
      rw [decCharsAux]
      by_cases h10 : n < 10
      · rw [if_pos h10]
        show List.foldl _ 0 [digitChar n] = n
        rw [List.foldl]
        simp only [List.foldl_nil]
        rw [Nat.zero_mul, Nat.zero_add, digit_val n h10]
      · rw [if_neg h10]
        have hlt : n / 10 < n := Nat.div_lt_self (by omega) (by omega)
        rw [tokVal_append_digit, ih (n / 10) (by omega),
          digit_val (n % 10) (Nat.mod_lt _ (by omega))]
        omega

theorem decRepr_val (n : Nat) : tokVal (decRepr n).data = n :=
  tokVal_decCharsAux (n + 1) n (by omega)

/-- A name of the shape `lblS ++ "." ++ str(n) ++ sufS` with `n ≠ 0` never
equals the corresponding epoch-0 name `lblS ++ ".0" ++ sufS`. -/
theorem shape_string_ne (lblS sufS : String) (n : Nat) (hn : n ≠ 0)
    (t : String) (ht : t.data = lblS.data ++ '.' :: '0' :: sufS.data) :
    lblS ++ ("." ++ decRepr n) ++ sufS ≠ t := by
  intro heq
  have hd : lblS.data ++ '.' :: ((decRepr n).data ++ sufS.data)
      = lblS.data ++ '.' :: '0' :: sufS.data := by
    have hstep := congrArg String.data heq
    rw [ht] at hstep
    calc lblS.data ++ '.' :: ((decRepr n).data ++ sufS.data)
        = (lblS ++ ("." ++ decRepr n) ++ sufS).data := by
          show lblS.data ++ '.' :: ((decRepr n).data ++ sufS.data)
            = (lblS.data ++ (['.'] ++ (decRepr n).data)) ++ sufS.data
          simp
      _ = lblS.data ++ '.' :: '0' :: sufS.data := hstep
  have h2 := List.append_cancel_left hd
  injection h2 with _ h3
  have h4 : (decRepr n).data ++ sufS.data = ['0'] ++ sufS.data := h3
  have h5 := List.append_cancel_right h4
  have h6 : tokVal (decRepr n).data = tokVal ['0'] := by rw [h5]
  rw [decRepr_val] at h6
  have h7 : tokVal ['0'] = 0 := by decide
  omega

/-- A name of the shape `lblS ++ "." ++ str(n) ++ sufS` never equals a
string starting with a different character than `lblS` does. -/
theorem shape_string_ne_head (lblS sufS : String) (n : Nat)
    (c : Char) (rest : List Char) (hc : lblS.data = c :: rest)
    (t : String) (c' : Char) (rest' : List Char) (ht : t.data = c' :: rest')
    (hne : c ≠ c') :
    lblS ++ ("." ++ decRepr n) ++ sufS ≠ t := by
  intro heq
  have hd : c :: (rest ++ '.' :: ((decRepr n).data ++ sufS.data)) = c' :: rest' := by
    have hstep := congrArg String.data heq
    rw [ht] at hstep
    calc c :: (rest ++ '.' :: ((decRepr n).data ++ sufS.data))
        = lblS.data ++ '.' :: ((decRepr n).data ++ sufS.data) := by rw [hc]; rfl
      _ = (lblS.data ++ (['.'] ++ (decRepr n).data)) ++ sufS.data := by simp
      _ = (lblS ++ ("." ++ decRepr n) ++ sufS).data := by
          show ((lblS.data ++ (['.'] ++ (decRepr n).data)) ++ sufS.data)
            = (lblS.data ++ (['.'] ++ (decRepr n).data)) ++ sufS.data
          rfl
      _ = c' :: rest' := hstep
  injection hd with h1 _
  exact hne h1

/-- The mutable state of a `TrainDir` fixture read or written by the
modelled methods. -/
structure TrainDirState where
  dataset : String
  train_cmd : String
  epochs : Int
  particles : String
  poses : String
  outdir : String

/-- Python truthiness of the `epoch: Union[int, None]` argument. -/
def truthyEpoch : Option Int → Bool
  | Option.none => false
  | some k => k != 0

/-- The `epoch_lbl` computed inside `epoch_cleaned`: `f".{epoch}"` when
`epoch` is truthy, the empty string otherwise. -/
def epoch_lbl_of (epoch : Option Int) : String :=
  if truthyEpoch epoch then "." ++ intRepr (epoch.getD 0) else ""

/-- `TrainDir.epoch_cleaned(epoch)`: raises `ValueError` when `epoch` is
truthy and out of range (a falsy `epoch` — `None` or `0` — bypasses the
check); then tests the presence of `weights{lbl}.pkl` plus, by training
mode, `reconstruct{lbl}.mrc` or `z{lbl}.pkl`, where `lbl` is
`epoch_lbl_of epoch`.  True iff none of the checked files is present.
`out_files` is the directory listing. -/
def epoch_cleaned (s : TrainDirState) (out_files : List String) (epoch : Option Int) :
    Except PyExc Bool :=
  if truthyEpoch epoch && !(decide (0 ≤ epoch.getD 0 ∧ epoch.getD 0 < s.epochs)) then
    .error .valueError
  else
    let epoch_lbl := epoch_lbl_of epoch
    let c1 : Bool := !(out_files.contains ("weights" ++ epoch_lbl ++ ".pkl"))
    let c2 : Bool :=
      if s.train_cmd == "train_nn" then
        !(out_files.contains ("reconstruct" ++ epoch_lbl ++ ".mrc"))
      else if s.train_cmd == "train_vae" then
        !(out_files.contains ("z" ++ epoch_lbl ++ ".pkl"))
      else true
    .ok (c1 && c2)

/-- `list(range(self.epochs)) + [None]`, the arguments `all_files_present`
passes to `epoch_cleaned`. -/
def epoch_list (s : TrainDirState) : List (Option Int) :=
  ((List.range s.epochs.toNat).map (fun n => some (Int.ofNat n))) ++ [Option.none]

/-- Python's short-circuiting `any(self.epoch_cleaned(epoch) for ...)`. -/
def any_cleaned (s : TrainDirState) (out_files : List String) :
    List (Option Int) → Except PyExc Bool
  | [] => .ok false
  | e :: es =>
      match epoch_cleaned s out_files e with
      | .error exc => .error exc
      | .ok true => .ok true
      | .ok false => any_cleaned s out_files es

/-- `TrainDir.all_files_present`. -/
def all_files_present (s : TrainDirState) (out_files : List String) :
    Except PyExc Bool :=
  match any_cleaned s out_files (epoch_list s) with
  | .error e => .error e
  | .ok b => .ok (!b)

/-- The epoch-0 checkpoint filenames that `all_files_present` would have
to inspect to cover epoch 0. -/
def epoch0_names : List String := ["weights.0.pkl", "z.0.pkl", "reconstruct.0.mrc"]

theorem contains_eq_false_of_not_mem (l : List String) (x : String)
    (h : x ∉ l) : l.contains x = false := by
  cases hc : l.contains x with
  | false => rfl
  | true => exact absurd (List.mem_of_elem_eq_true hc) h

theorem contains_filter_not_epoch0 (files : List String) (nm : String)
    (h : epoch0_names.contains nm = false) :
    (files.filter (fun x => !(epoch0_names.contains x))).contains nm
      = files.contains nm := by
  induction files with
  | nil => rfl
  | cons a t ih =>
      rw [List.filter_cons]
      by_cases ha : epoch0_names.contains a
      · have hba : (!epoch0_names.contains a) = false := by rw [ha]; rfl
        rw [hba, if_neg (by simp), ih, List.contains_cons]
        have hne : (nm == a) = false := by
          rw [beq_eq_false_iff_ne]
          intro heq
          rw [heq, ha] at h
          cases h
        rw [hne, Bool.false_or]
      · have hba : (!epoch0_names.contains a) = true := by
          cases hx : epoch0_names.contains a with
          | false => rfl
          | true => exact absurd hx ha
        rw [hba, if_pos rfl, List.contains_cons, List.contains_cons, ih]

/-- `epoch_cleaned` reads the file listing only through the membership of
the three checked names. -/
theorem epoch_cleaned_contains (s : TrainDirState) (f1 f2 : List String)
    (e : Option Int)
    (hw : f1.contains ("weights" ++ epoch_lbl_of e ++ ".pkl")
        = f2.contains ("weights" ++ epoch_lbl_of e ++ ".pkl"))
    (hr : f1.contains ("reconstruct" ++ epoch_lbl_of e ++ ".mrc")
        = f2.contains ("reconstruct" ++ epoch_lbl_of e ++ ".mrc"))
    (hz : f1.contains ("z" ++ epoch_lbl_of e ++ ".pkl")
        = f2.contains ("z" ++ epoch_lbl_of e ++ ".pkl")) :
    epoch_cleaned s f1 e = epoch_cleaned s f2 e := by
  simp only [epoch_cleaned, hw, hr, hz]

theorem epoch_lbl_of_nat (n : Nat) (hn : n ≠ 0) :
    epoch_lbl_of (some (Int.ofNat n)) = "." ++ decRepr n := by
  have ht : truthyEpoch (some (Int.ofNat n)) = true := by
    simp [truthyEpoch, bne, hn, Int.ofNat_eq_zero]
  rw [epoch_lbl_of, ht, if_pos rfl]
  have hi : intRepr (Int.ofNat n) = decRepr n := by
    rw [intRepr, if_neg (by exact of_decide_eq_false rfl)]
    rfl
  rw [Option.getD_some, hi]

theorem epoch_cleaned_filter (s : TrainDirState) (files : List String)
    (e : Option Int)
    (he : e = Option.none ∨ ∃ n : Nat, e = some (Int.ofNat n)) :
    epoch_cleaned s (files.filter (fun nm => !(epoch0_names.contains nm))) e
      = epoch_cleaned s files e := by
  have hcase : epoch_lbl_of e = ""
      ∨ ∃ n : Nat, n ≠ 0 ∧ epoch_lbl_of e = "." ++ decRepr n := by
    rcases he with rfl | ⟨n, rfl⟩
    · exact Or.inl rfl
    · by_cases hn : n = 0
      · subst hn; exact Or.inl rfl
      · exact Or.inr ⟨n, hn, epoch_lbl_of_nat n hn⟩
  rcases hcase with hlbl | ⟨n, hn, hlbl⟩
  · refine epoch_cleaned_contains s _ _ e ?_ ?_ ?_ <;> rw [hlbl] <;>
      exact contains_filter_not_epoch0 files _ (by decide)
  · have hw : epoch0_names.contains ("weights" ++ ("." ++ decRepr n) ++ ".pkl")
        = false := by
      refine contains_eq_false_of_not_mem _ _ ?_
      simp only [epoch0_names, List.mem_cons, List.not_mem_nil, or_false, not_or]
      exact ⟨shape_string_ne "weights" ".pkl" n hn _ (by decide),
        shape_string_ne_head "weights" ".pkl" n 'w' "eights".data (by decide)
          _ 'z' ".0.pkl".data (by decide) (by decide),
        shape_string_ne_head "weights" ".pkl" n 'w' "eights".data (by decide)
          _ 'r' "econstruct.0.mrc".data (by decide) (by decide)⟩
    have hr : epoch0_names.contains ("reconstruct" ++ ("." ++ decRepr n) ++ ".mrc")
        = false := by
      refine contains_eq_false_of_not_mem _ _ ?_
      simp only [epoch0_names, List.mem_cons, List.not_mem_nil, or_false, not_or]
      exact ⟨shape_string_ne_head "reconstruct" ".mrc" n 'r' "econstruct".data
          (by decide) _ 'w' "eights.0.pkl".data (by decide) (by decide),
        shape_string_ne_head "reconstruct" ".mrc" n 'r' "econstruct".data
          (by decide) _ 'z' ".0.pkl".data (by decide) (by decide),
        shape_string_ne "reconstruct" ".mrc" n hn _ (by decide)⟩
    have hz : epoch0_names.contains ("z" ++ ("." ++ decRepr n) ++ ".pkl")
        = false := by
      refine contains_eq_false_of_not_mem _ _ ?_
      simp only [epoch0_names, List.mem_cons, List.not_mem_nil, or_false, not_or]
      exact ⟨shape_string_ne_head "z" ".pkl" n 'z' [] (by decide)
          _ 'w' "eights.0.pkl".data (by decide) (by decide),
        shape_string_ne "z" ".pkl" n hn _ (by decide),
        shape_string_ne_head "z" ".pkl" n 'z' [] (by decide)
          _ 'r' "econstruct.0.mrc".data (by decide) (by decide)⟩
    refine epoch_cleaned_contains s _ _ e ?_ ?_ ?_ <;> rw [hlbl]
    · exact contains_filter_not_epoch0 files _ hw
    · exact contains_filter_not_epoch0 files _ hr
    · exact contains_filter_not_epoch0 files _ hz

theorem any_cleaned_filter (s : TrainDirState) (files : List String) :
    ∀ es : List (Option Int),
      (∀ e ∈ es, e = Option.none ∨ ∃ n : Nat, e = some (Int.ofNat n)) →
      any_cleaned s (files.filter (fun nm => !(epoch0_names.contains nm))) es
        = any_cleaned s files es := by
  intro es
  induction es with
  | nil => intro _; rfl
  | cons e rest ih =>
      intro h
      rw [any_cleaned, any_cleaned,
        epoch_cleaned_filter s files e (h e (List.mem_cons_self e rest))]
      cases epoch_cleaned s files e with
      | error exc => rfl
      | ok b =>
          cases b with
          | true => rfl
          | false => exact ih fun x hx => h x (List.mem_cons_of_mem e hx)

/-- Claim C9: `epoch_cleaned(0)` returns exactly what `epoch_cleaned(None)`
returns — the argument 0 is falsy, so the unsuffixed final outputs are
checked and the range check is bypassed — and consequently
`all_files_present` never inspects the epoch-0 checkpoint files: its
result is unchanged when `weights.0.pkl`, `z.0.pkl` and
`reconstruct.0.mrc` are removed from the file listing. -/
theorem C9_epoch0_aliasing (s : TrainDirState) (files : List String) :
    epoch_cleaned s files (some 0) = epoch_cleaned s files Option.none
    ∧ all_files_present s (files.filter (fun nm => !(epoch0_names.contains nm)))
        = all_files_present s files := by
  constructor
  · rfl
  · rw [all_files_present, all_files_present, any_cleaned_filter s files (epoch_list s)]
    intro e hemem
    rw [epoch_list] at hemem
    rcases List.mem_append.mp hemem with hrange | hnone
    · obtain ⟨n, _, rfl⟩ := List.mem_map.mp hrange
      exact Or.inr ⟨n, rfl⟩
    · rw [List.mem_singleton] at hnone
      exact Or.inl hnone

/-- Python's substring test on strings, `needle in hay`. -/
def pyStrIn (needle hay : String) : Bool := pySubstr needle.data hay.data

/-- The success marker asserted on the training subprocess output. -/
def finished_marker : String := ") Finished in "

/-- The command line built by `TrainDir.train_load_epoch`. -/
def load_cmd (s : TrainDirState) (load_epoch train_epochs : Int) : String :=
  "cryodrgn " ++ s.train_cmd ++ " " ++ s.particles ++ " -o " ++ s.outdir
    ++ " --poses " ++ s.poses ++ " --no-amp -n=" ++ intRepr train_epochs
    ++ " --load " ++ (s.outdir ++ "/" ++ ("weights." ++ intRepr load_epoch ++ ".pkl"))
    ++ " "
    ++ (if s.train_cmd == "train_vae" then "--zdim=8 --tdim=16 --tlayers=1 "
        else if s.train_cmd == "train_nn" then "--dim=16 --layers=2 " else "")

/-- The outcome of one `train_load_epoch` call: the subprocess command
lines launched during the call, the fixture state afterwards, and the
exception raised, if any. -/
structure LoadRunResult where
  launched : List String
  state : TrainDirState
  err : Option PyExc

/-- `TrainDir.train_load_epoch(load_epoch, train_epochs)`: validates the
range first and raises `ValueError` before anything else; otherwise builds
the command, runs it (the subprocess is abstracted as the `run_out`
oracle from command line to standard output), asserts the success marker,
sets `self.epochs = train_epochs`, and asserts `all_files_present` on the
new listing (`files_after`). -/
def train_load_epoch (s : TrainDirState) (load_epoch train_epochs : Int)
    (run_out : String → String) (files_after : TrainDirState → List String) :
    LoadRunResult :=
  if !(decide (0 ≤ load_epoch ∧ load_epoch < s.epochs)) then
    ⟨[], s, some .valueError⟩
  else
    let cmd := load_cmd s load_epoch train_epochs
    if !(pyStrIn finished_marker (run_out cmd)) then ⟨[cmd], s, some .assertionError⟩
    else
      let s1 := { s with epochs := train_epochs }
      match all_files_present s1 (files_after s1) with
      | .error e => ⟨[cmd], s1, some e⟩
      | .ok true => ⟨[cmd], s1, Option.none⟩
      | .ok false => ⟨[cmd], s1, some .assertionError⟩

/-- Claim C8: for every fixture state, an out-of-range `load_epoch`
(outside `[0, epochs)`) makes `train_load_epoch` raise `ValueError`
immediately: no subprocess is launched and the state is unchanged. -/
theorem C8_load_epoch_range (s : TrainDirState) (load_epoch train_epochs : Int)
    (run_out : String → String) (files_after : TrainDirState → List String)
    (h : ¬(0 ≤ load_epoch ∧ load_epoch < s.epochs)) :
    train_load_epoch s load_epoch train_epochs run_out files_after
      = ⟨[], s, some .valueError⟩ := by
  rw [train_load_epoch, if_pos]
  rw [decide_eq_false h]
  rfl

/-- Claim C8 (witness): loading epoch 10 from a 10-epoch fixture. -/
theorem C8_load_epoch_range_witness :
    train_load_epoch ⟨"hand", "train_nn", 10, "p.mrcs", "q.pkl", "out"⟩ 10 14
        (fun _ => "") (fun _ => [])
      = ⟨[], ⟨"hand", "train_nn", 10, "p.mrcs", "q.pkl", "out"⟩,
          some .valueError⟩ :=
  C8_load_epoch_range ⟨"hand", "train_nn", 10, "p.mrcs", "q.pkl", "out"⟩ 10 14
    (fun _ => "") (fun _ => []) (by decide)

/-- Claim C5 (witness): idempotence at a concrete directory. -/
theorem C5_idempotent_witness :
    clean_dir [⟨"pose.5.pkl", EKind.file⟩] (ArgsVal.nsArgs 5 false)
      = .ok (0, [⟨"pose.5.pkl", EKind.file⟩]) :=
  C5_idempotent [⟨"pose.8.pkl", EKind.file⟩, ⟨"pose.12.pkl", EKind.file⟩,
      ⟨"pose.5.pkl", EKind.file⟩] 5 (by decide) (by decide) 2
    [⟨"pose.5.pkl", EKind.file⟩] (by decide)

end Cryodrgn
